import Mathlib

/-!
Verification of the predicate-evaluation layer of the policy-bot repository:
the `Title`, `HasValidSignatures`, `HasValidSignaturesBy` and
`HasValidSignaturesByKeys` predicates (files
`policy/predicate/title.go` and the signature-predicate file), shallowly
embedded in Lean 4.

Go's `(bool, string, error)` return triple of `Evaluate` becomes the
`EvalResult` structure.  The fallible `prctx.Commits()` call becomes an
`Except String (List Commit)` field of the context, and the fallible
`IsActor` collaborator becomes a function `String → Except String Bool`.
Go map iteration order is unspecified, so the loops ranging over the
`signers` / `keys` maps are parametrised by an explicit iteration order,
constrained in theorems to be a permutation of the deduplicated set.
-/

deriving instance DecidableEq for Except

namespace PolicyBot

/-- Signature type enumeration (`pull.SignatureGpg` etc. in the source). -/
inductive SignatureType where
  | gpg
  | ssh
  | other
deriving DecidableEq, Repr

/-- Commit signature metadata, mirroring the `pull.Signature` fields used by
the predicates: `Type`, `IsValid`, `State`, `Signer`, `KeyID`. -/
structure Signature where
  type : SignatureType
  isValid : Bool
  state : String
  signer : String
  keyID : String
deriving DecidableEq, Repr

/-- A commit: a SHA plus an optional signature (`commit.Signature == nil`
becomes `none`). -/
structure Commit where
  sha : String
  signature : Option Signature
deriving DecidableEq, Repr

/-- The part of `pull.Context` the predicates read: `Title()` (always
succeeds) and `Commits()` (may fail). -/
structure PullContext where
  title : String
  commits : Except String (List Commit)

/-- The `(bool, string, error)` triple returned by every `Evaluate`. -/
structure EvalResult where
  satisfied : Bool
  reason : String
  err : Option String
deriving DecidableEq, Repr

/-- Webhook trigger categories (`common.TriggerPullRequest`,
`common.TriggerCommit`). -/
inductive Trigger where
  | pullRequest
  | commit
deriving DecidableEq, Repr

/-- `hasValidSignature(ctx, commit)`: absent signature or `IsValid=false`
yield `(false, reason)`; otherwise `(true, "")`.  Go's `%.10s` truncates the
SHA to its first 10 characters. -/
def hasValidSignature (commit : Commit) : Bool × String :=
  match commit.signature with
  | none => (false, "Commit " ++ commit.sha.take 10 ++ " has no signature")
  | some sig =>
      if !sig.isValid then
        (false, "Commit " ++ commit.sha.take 10 ++
          " has an invalid signature due to " ++ sig.state)
      else
        (true, "")

/-- The signer of a commit's signature (`c.Signature.Signer`); the code only
reads it after `hasValidSignature` succeeded, so the signature is present
there and the `none` default is never reached on those paths. -/
def commitSigner (c : Commit) : String :=
  (c.signature.map Signature.signer).getD ""

/-- The signature type of a commit (`c.Signature.Type`); like
`commitSigner`, read only after a successful validity check. -/
def commitSigType (c : Commit) : SignatureType :=
  (c.signature.map Signature.type).getD SignatureType.other

/-- The GPG key id of a commit's signature (`c.Signature.KeyID`). -/
def commitKeyID (c : Commit) : String :=
  (c.signature.map Signature.keyID).getD ""

/-- Inserting a key into a Go `map[string]struct{}` grows the key set; we
represent the set by its first-seen-order duplicate-free list. -/
def insertDistinct (acc : List String) (s : String) : List String :=
  if s ∈ acc then acc else acc ++ [s]

namespace HasValidSignatures

/-- The commit loop of `HasValidSignatures.Evaluate`: return at the first
invalid commit (unsatisfied with its reason when `pred`, satisfied with
empty reason otherwise); after a full scan, satisfied when `pred` and
unsatisfied with the all-valid message otherwise. -/
def loop (pred : Bool) : List Commit → EvalResult
  | [] =>
      if pred then ⟨true, "", none⟩
      else ⟨false, "All commits are signed and have valid signatures", none⟩
  | c :: rest =>
      if !(hasValidSignature c).1 then
        if pred then ⟨false, (hasValidSignature c).2, none⟩
        else ⟨true, "", none⟩
      else
        loop pred rest

/-- `HasValidSignatures.Evaluate`: fetch commits (propagating a wrapped
failure) and run the scan loop. -/
def Evaluate (pred : Bool) (prctx : PullContext) : EvalResult :=
  match prctx.commits with
  | Except.error e => ⟨false, "", some ("failed to get commits: " ++ e)⟩
  | Except.ok commits => loop pred commits

/-- `HasValidSignatures.Trigger`. -/
def TriggerOf (_pred : Bool) : Trigger := Trigger.commit

end HasValidSignatures

namespace HasValidSignaturesBy

/-- The commit loop of `HasValidSignaturesBy.Evaluate`: return the first
invalid commit's reason, otherwise accumulate the distinct signer set. -/
def scanCommits : List Commit → List String → String ⊕ List String
  | [], acc => Sum.inr acc
  | c :: rest, acc =>
      if !(hasValidSignature c).1 then Sum.inl (hasValidSignature c).2
      else scanCommits rest (insertDistinct acc (commitSigner c))

/-- The deduplicated signer set of a commit list, in first-seen order (the
key set of the Go `signers` map once the scan completes). -/
def distinctSigners (commits : List Commit) : List String :=
  commits.foldl (fun acc c => insertDistinct acc (commitSigner c)) []

/-- The signer loop: query `IsActor` for each signer in the given iteration
order; propagate a resolver failure, return unsatisfied naming the first
non-member, and satisfied with empty reason when all are members. -/
def checkSigners (isActor : String → Except String Bool) :
    List String → EvalResult
  | [] => ⟨true, "", none⟩
  | s :: rest =>
      match isActor s with
      | Except.error e => ⟨false, "", some e⟩
      | Except.ok member =>
          if !member then
            ⟨false, "Contributor \"" ++ s ++
              "\" does not meet the required membership conditions for signing",
              none⟩
          else checkSigners isActor rest

/-- `HasValidSignaturesBy.Evaluate`, parametrised by the iteration order of
the Go map over distinct signers (unspecified in Go; theorems constrain it
to a permutation of `distinctSigners`). -/
def EvaluateWith (isActor : String → Except String Bool)
    (prctx : PullContext) (order : List String) : EvalResult :=
  match prctx.commits with
  | Except.error e => ⟨false, "", some ("failed to get commits: " ++ e)⟩
  | Except.ok commits =>
      match scanCommits commits [] with
      | Sum.inl desc => ⟨false, desc, none⟩
      | Sum.inr _ => checkSigners isActor order

/-- `HasValidSignaturesBy.Trigger`. -/
def TriggerOf : Trigger := Trigger.commit

end HasValidSignaturesBy

namespace HasValidSignaturesByKeys

/-- The commit loop of `HasValidSignaturesByKeys.Evaluate`: first invalid
commit's reason short-circuits; a valid non-GPG signature short-circuits
with the non-GPG message; otherwise the distinct key ids accumulate. -/
def scanCommits : List Commit → List String → String ⊕ List String
  | [], acc => Sum.inr acc
  | c :: rest, acc =>
      if !(hasValidSignature c).1 then Sum.inl (hasValidSignature c).2
      else
        match commitSigType c with
        | SignatureType.gpg =>
            scanCommits rest (insertDistinct acc (commitKeyID c))
        | _ =>
            Sum.inl ("Commit " ++ c.sha.take 10 ++
              " signature is not a GPG signature")

/-- The deduplicated key set of a commit list, in first-seen order. -/
def distinctKeys (commits : List Commit) : List String :=
  commits.foldl (fun acc c => insertDistinct acc (commitKeyID c)) []

/-- The inner loop over `pred.KeyIDs`: exact string match against the
allow-list. -/
def keyAllowed (keyIDs : List String) (key : String) : Bool :=
  keyIDs.any (fun acceptedKey => key == acceptedKey)

/-- The key loop: unsatisfied naming the first key (in the given iteration
order) missing from the allow-list, satisfied otherwise. -/
def checkKeys (keyIDs : List String) : List String → EvalResult
  | [] => ⟨true, "", none⟩
  | k :: rest =>
      if !keyAllowed keyIDs k then
        ⟨false, "Key \"" ++ k ++
          "\" does not meet the required key conditions for signing", none⟩
      else checkKeys keyIDs rest

/-- `HasValidSignaturesByKeys.Evaluate`, parametrised by the iteration order
of the Go map over distinct keys. -/
def EvaluateWith (keyIDs : List String) (prctx : PullContext)
    (order : List String) : EvalResult :=
  match prctx.commits with
  | Except.error e => ⟨false, "", some ("failed to get commits: " ++ e)⟩
  | Except.ok commits =>
      match scanCommits commits [] with
      | Sum.inl desc => ⟨false, desc, none⟩
      | Sum.inr _ => checkKeys keyIDs order

/-- `HasValidSignaturesByKeys.Trigger`. -/
def TriggerOf (_keyIDs : List String) : Trigger := Trigger.commit

end HasValidSignaturesByKeys

namespace Title

/-- Modelled from the spec: the RegexSet matcher used by `Title` "wraps a
list of patterns, tests whether any matches a string" (`anyMatches` and
`common.Regexp` are not under `src/`); a pattern is abstracted as a boolean
string test. -/
def anyMatches (patterns : List (String → Bool)) (s : String) : Bool :=
  patterns.any (fun p => p s)

/-- The `Title` predicate configuration: `Matches` and `NotMatches` pattern
lists. -/
structure Config where
  matchList : List (String → Bool)
  notMatchList : List (String → Bool)

/-- `Title.Evaluate`: a non-empty `Matches` list with a matching pattern is
satisfied first; else a non-empty `NotMatches` list none of whose patterns
match is satisfied; else unsatisfied with empty reason. -/
def Evaluate (pred : Config) (prctx : PullContext) : EvalResult :=
  if 0 < pred.matchList.length ∧ anyMatches pred.matchList prctx.title then
    ⟨true, "PR Title matches a Match pattern", none⟩
  else if 0 < pred.notMatchList.length ∧
      ¬ anyMatches pred.notMatchList prctx.title then
    ⟨true, "PR Title doesn't match a NotMatch pattern", none⟩
  else
    ⟨false, "", none⟩

/-- `Title.Trigger`. -/
def TriggerOf (_pred : Config) : Trigger := Trigger.pullRequest

end Title

/-! ### Helper lemmas -/

lemma append_ne_empty_of_left (s t : String) (h : s.data ≠ []) :
    s ++ t ≠ "" := by
  intro he
  apply h
  have hd : (s ++ t).data = ("" : String).data := by rw [he]
  rw [String.data_append] at hd
  exact (List.append_eq_nil.mp hd).1

/-- An invalid commit's description from `hasValidSignature` is never
empty. -/
lemma hasValidSignature_invalid_reason_ne_empty (c : Commit)
    (h : (hasValidSignature c).1 = false) :
    (hasValidSignature c).2 ≠ "" := by
  unfold hasValidSignature at *
  match hs : c.signature with
  | none =>
      simp only [hs]
      rw [String.append_assoc]
      apply append_ne_empty_of_left
      decide
  | some sig =>
      simp only [hs] at h ⊢
      by_cases hv : sig.isValid
      · simp [hv] at h
      · simp only [hv, Bool.not_false, if_true]
        rw [String.append_assoc, String.append_assoc]
        apply append_ne_empty_of_left
        decide

/-- A valid commit gets the empty description. -/
lemma hasValidSignature_valid_reason (c : Commit)
    (h : (hasValidSignature c).1 = true) :
    (hasValidSignature c).2 = "" := by
  unfold hasValidSignature at *
  match hs : c.signature with
  | none => simp [hs] at h
  | some sig =>
      simp only [hs] at h ⊢
      by_cases hv : sig.isValid
      · simp [hv]
      · simp [hv] at h

/-- A full scan of all-valid commits reaches the tail of the
`HasValidSignatures` loop. -/
lemma hvs_loop_all_valid (pred : Bool) (l : List Commit)
    (h : ∀ c ∈ l, (hasValidSignature c).1 = true) :
    HasValidSignatures.loop pred l =
      if pred then ⟨true, "", none⟩
      else ⟨false, "All commits are signed and have valid signatures", none⟩ := by
  induction l with
  | nil => rfl
  | cons c rest ih =>
      have hc := h c (List.mem_cons_self c rest)
      simp only [HasValidSignatures.loop, hc, Bool.not_true, Bool.false_eq_true,
        if_false]
      exact ih (fun c' hc' => h c' (List.mem_cons_of_mem c hc'))

/-- The `HasValidSignatures` loop stops at the first invalid commit,
independently of everything after it. -/
lemma hvs_loop_first_invalid (pred : Bool) (pre : List Commit) (c : Commit)
    (post : List Commit)
    (hpre : ∀ c' ∈ pre, (hasValidSignature c').1 = true)
    (hc : (hasValidSignature c).1 = false) :
    HasValidSignatures.loop pred (pre ++ c :: post) =
      if pred then ⟨false, (hasValidSignature c).2, none⟩
      else ⟨true, "", none⟩ := by
  induction pre with
  | nil =>
      simp only [List.nil_append, HasValidSignatures.loop, hc, Bool.not_false,
        if_true]
  | cons a pre ih =>
      have ha := hpre a (List.mem_cons_self a pre)
      simp only [List.cons_append, HasValidSignatures.loop, ha, Bool.not_true,
        Bool.false_eq_true, if_false]
      exact ih (fun c' hc' => hpre c' (List.mem_cons_of_mem a hc'))

/-- The `HasValidSignatures` loop never produces an error. -/
lemma hvs_loop_err_none (pred : Bool) (l : List Commit) :
    (HasValidSignatures.loop pred l).err = none := by
  induction l with
  | nil => cases pred <;> rfl
  | cons c rest ih =>
      by_cases hc : (hasValidSignature c).1 = true
      · simpa only [HasValidSignatures.loop, hc, Bool.not_true,
          Bool.false_eq_true, if_false] using ih
      · have hc' : (hasValidSignature c).1 = false := by
          cases h : (hasValidSignature c).1
          · rfl
          · exact absurd h hc
        cases pred <;> simp [HasValidSignatures.loop, hc']

/-- An all-valid scan in `HasValidSignaturesBy` completes with the
accumulated distinct signer set. -/
lemma by_scan_all_valid (l : List Commit) (acc : List String)
    (h : ∀ c ∈ l, (hasValidSignature c).1 = true) :
    HasValidSignaturesBy.scanCommits l acc =
      Sum.inr (l.foldl (fun a c => insertDistinct a (commitSigner c)) acc) := by
  induction l generalizing acc with
  | nil => rfl
  | cons c rest ih =>
      have hc := h c (List.mem_cons_self c rest)
      simp only [HasValidSignaturesBy.scanCommits, hc, Bool.not_true,
        Bool.false_eq_true, if_false, List.foldl_cons]
      exact ih _ (fun c' hc' => h c' (List.mem_cons_of_mem c hc'))

/-- The `HasValidSignaturesBy` scan stops at the first invalid commit with
its reason, independently of the rest of the list. -/
lemma by_scan_first_invalid (pre : List Commit) (c : Commit)
    (post : List Commit) (acc : List String)
    (hpre : ∀ c' ∈ pre, (hasValidSignature c').1 = true)
    (hc : (hasValidSignature c).1 = false) :
    HasValidSignaturesBy.scanCommits (pre ++ c :: post) acc =
      Sum.inl (hasValidSignature c).2 := by
  induction pre generalizing acc with
  | nil =>
      simp only [List.nil_append, HasValidSignaturesBy.scanCommits, hc,
        Bool.not_false, if_true]
  | cons a pre ih =>
      have ha := hpre a (List.mem_cons_self a pre)
      simp only [List.cons_append, HasValidSignaturesBy.scanCommits, ha,
        Bool.not_true, Bool.false_eq_true, if_false]
      exact ih _ (fun c' hc' => hpre c' (List.mem_cons_of_mem a hc'))

/-- Whenever the `HasValidSignaturesBy` scan short-circuits, the reason it
carries is non-empty. -/
lemma by_scan_inl_ne_empty (l : List Commit) (acc : List String)
    (desc : String)
    (h : HasValidSignaturesBy.scanCommits l acc = Sum.inl desc) :
    desc ≠ "" := by
  induction l generalizing acc with
  | nil => simp [HasValidSignaturesBy.scanCommits] at h
  | cons c rest ih =>
      by_cases hc : (hasValidSignature c).1 = true
      · simp only [HasValidSignaturesBy.scanCommits, hc, Bool.not_true,
          Bool.false_eq_true, if_false] at h
        exact ih _ h
      · have hc' : (hasValidSignature c).1 = false := by
          cases hb : (hasValidSignature c).1
          · rfl
          · exact absurd hb hc
        simp only [HasValidSignaturesBy.scanCommits, hc', Bool.not_false,
          if_true, Sum.inl.injEq] at h
        subst h
        exact hasValidSignature_invalid_reason_ne_empty c hc'

/-- The signer loop reports the first non-member in its iteration order. -/
lemma checkSigners_first_nonmember (isActor : String → Except String Bool)
    (pre : List String) (s : String) (rest : List String)
    (hpre : ∀ s' ∈ pre, isActor s' = Except.ok true)
    (hs : isActor s = Except.ok false) :
    HasValidSignaturesBy.checkSigners isActor (pre ++ s :: rest) =
      ⟨false, "Contributor \"" ++ s ++
        "\" does not meet the required membership conditions for signing",
        none⟩ := by
  induction pre with
  | nil => simp [HasValidSignaturesBy.checkSigners, hs]
  | cons a pre ih =>
      have ha := hpre a (List.mem_cons_self a pre)
      simp only [List.cons_append, HasValidSignaturesBy.checkSigners, ha,
        Bool.not_true, Bool.false_eq_true, if_false]
      exact ih (fun s' hs' => hpre s' (List.mem_cons_of_mem a hs'))

/-- The signer loop is satisfied with an empty reason when every queried
signer is a member. -/
lemma checkSigners_all_members (isActor : String → Except String Bool)
    (order : List String)
    (h : ∀ s ∈ order, isActor s = Except.ok true) :
    HasValidSignaturesBy.checkSigners isActor order = ⟨true, "", none⟩ := by
  induction order with
  | nil => rfl
  | cons s rest ih =>
      have hs := h s (List.mem_cons_self s rest)
      simp only [HasValidSignaturesBy.checkSigners, hs, Bool.not_true,
        Bool.false_eq_true, if_false]
      exact ih (fun s' hs' => h s' (List.mem_cons_of_mem s hs'))

/-- The signer loop propagates the first resolver failure in its iteration
order, with the `(false, "")` accompanying value. -/
lemma checkSigners_first_error (isActor : String → Except String Bool)
    (pre : List String) (s : String) (rest : List String) (e : String)
    (hpre : ∀ s' ∈ pre, isActor s' = Except.ok true)
    (hs : isActor s = Except.error e) :
    HasValidSignaturesBy.checkSigners isActor (pre ++ s :: rest) =
      ⟨false, "", some e⟩ := by
  induction pre with
  | nil => simp [HasValidSignaturesBy.checkSigners, hs]
  | cons a pre ih =>
      have ha := hpre a (List.mem_cons_self a pre)
      simp only [List.cons_append, HasValidSignaturesBy.checkSigners, ha,
        Bool.not_true, Bool.false_eq_true, if_false]
      exact ih (fun s' hs' => hpre s' (List.mem_cons_of_mem a hs'))

/-- A scan of commits that are all valid GPG signatures completes with the
accumulated distinct key set. -/
lemma keys_scan_all_valid_gpg (l : List Commit) (acc : List String)
    (h : ∀ c ∈ l, (hasValidSignature c).1 = true ∧
      commitSigType c = SignatureType.gpg) :
    HasValidSignaturesByKeys.scanCommits l acc =
      Sum.inr (l.foldl (fun a c => insertDistinct a (commitKeyID c)) acc) := by
  induction l generalizing acc with
  | nil => rfl
  | cons c rest ih =>
      have hc := h c (List.mem_cons_self c rest)
      simp only [HasValidSignaturesByKeys.scanCommits, hc.1, Bool.not_true,
        Bool.false_eq_true, if_false, hc.2, List.foldl_cons]
      exact ih _ (fun c' hc' => h c' (List.mem_cons_of_mem c hc'))

/-- The `HasValidSignaturesByKeys` scan stops at the first commit that is
valid but not GPG-signed, after a prefix of valid GPG commits, independently
of the rest of the list. -/
lemma keys_scan_first_non_gpg (pre : List Commit) (c : Commit)
    (post : List Commit) (acc : List String)
    (hpre : ∀ c' ∈ pre, (hasValidSignature c').1 = true ∧
      commitSigType c' = SignatureType.gpg)
    (hcv : (hasValidSignature c).1 = true)
    (hct : commitSigType c ≠ SignatureType.gpg) :
    HasValidSignaturesByKeys.scanCommits (pre ++ c :: post) acc =
      Sum.inl ("Commit " ++ c.sha.take 10 ++
        " signature is not a GPG signature") := by
  induction pre generalizing acc with
  | nil =>
      simp only [List.nil_append, HasValidSignaturesByKeys.scanCommits, hcv,
        Bool.not_true, Bool.false_eq_true, if_false]
  | cons a pre ih =>
      have ha := hpre a (List.mem_cons_self a pre)
      simp only [List.cons_append, HasValidSignaturesByKeys.scanCommits, ha.1,
        Bool.not_true, Bool.false_eq_true, if_false, ha.2]
      exact ih _ (fun c' hc' => hpre c' (List.mem_cons_of_mem a hc'))

/-- The `HasValidSignaturesByKeys` scan stops at the first invalid commit
with its reason. -/
lemma keys_scan_first_invalid (pre : List Commit) (c : Commit)
    (post : List Commit) (acc : List String)
    (hpre : ∀ c' ∈ pre, (hasValidSignature c').1 = true ∧
      commitSigType c' = SignatureType.gpg)
    (hc : (hasValidSignature c).1 = false) :
    HasValidSignaturesByKeys.scanCommits (pre ++ c :: post) acc =
      Sum.inl (hasValidSignature c).2 := by
  induction pre generalizing acc with
  | nil =>
      simp only [List.nil_append, HasValidSignaturesByKeys.scanCommits, hc,
        Bool.not_false, if_true]
  | cons a pre ih =>
      have ha := hpre a (List.mem_cons_self a pre)
      simp only [List.cons_append, HasValidSignaturesByKeys.scanCommits, ha.1,
        Bool.not_true, Bool.false_eq_true, if_false, ha.2]
      exact ih _ (fun c' hc' => hpre c' (List.mem_cons_of_mem a hc'))

/-- Whenever the `HasValidSignaturesByKeys` scan short-circuits, the reason
it carries is non-empty. -/
lemma keys_scan_inl_ne_empty (l : List Commit) (acc : List String)
    (desc : String)
    (h : HasValidSignaturesByKeys.scanCommits l acc = Sum.inl desc) :
    desc ≠ "" := by
  induction l generalizing acc with
  | nil => simp [HasValidSignaturesByKeys.scanCommits] at h
  | cons c rest ih =>
      by_cases hc : (hasValidSignature c).1 = true
      · simp only [HasValidSignaturesByKeys.scanCommits, hc, Bool.not_true,
          Bool.false_eq_true, if_false] at h
        cases ht : commitSigType c with
        | gpg =>
            rw [ht] at h
            exact ih _ h
        | ssh =>
            rw [ht] at h
            simp only [Sum.inl.injEq] at h
            subst h
            rw [String.append_assoc]
            apply append_ne_empty_of_left
            decide
        | other =>
            rw [ht] at h
            simp only [Sum.inl.injEq] at h
            subst h
            rw [String.append_assoc]
            apply append_ne_empty_of_left
            decide
      · have hc' : (hasValidSignature c).1 = false := by
          cases hb : (hasValidSignature c).1
          · rfl
          · exact absurd hb hc
        simp only [HasValidSignaturesByKeys.scanCommits, hc', Bool.not_false,
          if_true, Sum.inl.injEq] at h
        subst h
        exact hasValidSignature_invalid_reason_ne_empty c hc'

/-- The key loop reports the first non-allow-listed key in its iteration
order. -/
lemma checkKeys_first_missing (keyIDs : List String) (pre : List String)
    (k : String) (rest : List String)
    (hpre : ∀ k' ∈ pre, HasValidSignaturesByKeys.keyAllowed keyIDs k' = true)
    (hk : HasValidSignaturesByKeys.keyAllowed keyIDs k = false) :
    HasValidSignaturesByKeys.checkKeys keyIDs (pre ++ k :: rest) =
      ⟨false, "Key \"" ++ k ++
        "\" does not meet the required key conditions for signing", none⟩ := by
  induction pre with
  | nil => simp [HasValidSignaturesByKeys.checkKeys, hk]
  | cons a pre ih =>
      have ha := hpre a (List.mem_cons_self a pre)
      simp only [List.cons_append, HasValidSignaturesByKeys.checkKeys, ha,
        Bool.not_true, Bool.false_eq_true, if_false]
      exact ih (fun k' hk' => hpre k' (List.mem_cons_of_mem a hk'))

/-- The key loop is satisfied with an empty reason when every key is
allow-listed. -/
lemma checkKeys_all_allowed (keyIDs : List String) (order : List String)
    (h : ∀ k ∈ order, HasValidSignaturesByKeys.keyAllowed keyIDs k = true) :
    HasValidSignaturesByKeys.checkKeys keyIDs order = ⟨true, "", none⟩ := by
  induction order with
  | nil => rfl
  | cons k rest ih =>
      have hk := h k (List.mem_cons_self k rest)
      simp only [HasValidSignaturesByKeys.checkKeys, hk, Bool.not_true,
        Bool.false_eq_true, if_false]
      exact ih (fun k' hk' => h k' (List.mem_cons_of_mem k hk'))

/-- The key loop never produces an error. -/
lemma checkKeys_err_none (keyIDs : List String) (order : List String) :
    (HasValidSignaturesByKeys.checkKeys keyIDs order).err = none := by
  induction order with
  | nil => rfl
  | cons k rest ih =>
      by_cases hk : HasValidSignaturesByKeys.keyAllowed keyIDs k = true
      · simpa only [HasValidSignaturesByKeys.checkKeys, hk, Bool.not_true,
          Bool.false_eq_true, if_false] using ih
      · have hk' : HasValidSignaturesByKeys.keyAllowed keyIDs k = false := by
          cases hb : HasValidSignaturesByKeys.keyAllowed keyIDs k
          · rfl
          · exact absurd hb hk
        simp [HasValidSignaturesByKeys.checkKeys, hk']

/-- In the `HasValidSignatures` loop, the reason is non-empty exactly on the
unsatisfied outcomes. -/
lemma hvs_loop_reason_iff (pred : Bool) (l : List Commit) :
    ((HasValidSignatures.loop pred l).reason ≠ "" ↔
      (HasValidSignatures.loop pred l).satisfied = false) := by
  induction l with
  | nil =>
      cases pred
      · simp only [HasValidSignatures.loop, Bool.false_eq_true, if_false]
        constructor
        · intro _; trivial
        · intro _
          have : ("All commits are signed and have valid signatures" : String)
              ≠ "" := by decide
          exact this
      · simp [HasValidSignatures.loop]
  | cons c rest ih =>
      by_cases hc : (hasValidSignature c).1 = true
      · simpa only [HasValidSignatures.loop, hc, Bool.not_true,
          Bool.false_eq_true, if_false] using ih
      · have hc' : (hasValidSignature c).1 = false := by
          cases hb : (hasValidSignature c).1
          · rfl
          · exact absurd hb hc
        cases pred
        · simp [HasValidSignatures.loop, hc']
        · simp only [HasValidSignatures.loop, hc', Bool.not_false, if_true]
          constructor
          · intro _; trivial
          · intro _
            exact hasValidSignature_invalid_reason_ne_empty c hc'

/-- In the signer loop, absent a resolver failure, the reason is non-empty
exactly on the unsatisfied outcome. -/
lemma checkSigners_reason_iff (isActor : String → Except String Bool)
    (order : List String)
    (h : (HasValidSignaturesBy.checkSigners isActor order).err = none) :
    ((HasValidSignaturesBy.checkSigners isActor order).reason ≠ "" ↔
      (HasValidSignaturesBy.checkSigners isActor order).satisfied = false) := by
  induction order with
  | nil => simp [HasValidSignaturesBy.checkSigners]
  | cons s rest ih =>
      match ha : isActor s with
      | Except.error e =>
          rw [HasValidSignaturesBy.checkSigners, ha] at h
          simp at h
      | Except.ok true =>
          rw [HasValidSignaturesBy.checkSigners, ha] at h ⊢
          simp only [Bool.not_true, Bool.false_eq_true, if_false] at h ⊢
          exact ih h
      | Except.ok false =>
          rw [HasValidSignaturesBy.checkSigners, ha]
          simp only [Bool.not_false, if_true]
          constructor
          · intro _; trivial
          · intro _
            rw [String.append_assoc]
            apply append_ne_empty_of_left
            decide

/-- In the key loop, the reason is non-empty exactly on the unsatisfied
outcome. -/
lemma checkKeys_reason_iff (keyIDs : List String) (order : List String) :
    ((HasValidSignaturesByKeys.checkKeys keyIDs order).reason ≠ "" ↔
      (HasValidSignaturesByKeys.checkKeys keyIDs order).satisfied = false) := by
  induction order with
  | nil => simp [HasValidSignaturesByKeys.checkKeys]
  | cons k rest ih =>
      by_cases hk : HasValidSignaturesByKeys.keyAllowed keyIDs k = true
      · simpa only [HasValidSignaturesByKeys.checkKeys, hk, Bool.not_true,
          Bool.false_eq_true, if_false] using ih
      · have hk' : HasValidSignaturesByKeys.keyAllowed keyIDs k = false := by
          cases hb : HasValidSignaturesByKeys.keyAllowed keyIDs k
          · rfl
          · exact absurd hb hk
        simp only [HasValidSignaturesByKeys.checkKeys, hk', Bool.not_false,
          if_true]
        constructor
        · intro _; trivial
        · intro _
          rw [String.append_assoc]
          apply append_ne_empty_of_left
          decide

/-- A signer-loop failure carries the `(false, "")` accompanying value. -/
lemma checkSigners_err_some (isActor : String → Except String Bool)
    (order : List String) (e : String)
    (h : (HasValidSignaturesBy.checkSigners isActor order).err = some e) :
    HasValidSignaturesBy.checkSigners isActor order = ⟨false, "", some e⟩ := by
  induction order with
  | nil => simp [HasValidSignaturesBy.checkSigners] at h
  | cons s rest ih =>
      match ha : isActor s with
      | Except.error e' =>
          rw [HasValidSignaturesBy.checkSigners, ha] at h ⊢
          simp only [Option.some.injEq] at h
          rw [h]
      | Except.ok true =>
          rw [HasValidSignaturesBy.checkSigners, ha] at h ⊢
          simp only [Bool.not_true, Bool.false_eq_true, if_false] at h ⊢
          exact ih h
      | Except.ok false =>
          rw [HasValidSignaturesBy.checkSigners, ha] at h
          simp at h

/-- With a total membership resolver, the signer loop never fails. -/
lemma checkSigners_err_none_of_total (isActor : String → Except String Bool)
    (order : List String)
    (h : ∀ s ∈ order, ∃ b, isActor s = Except.ok b) :
    (HasValidSignaturesBy.checkSigners isActor order).err = none := by
  induction order with
  | nil => rfl
  | cons s rest ih =>
      obtain ⟨b, hb⟩ := h s (List.mem_cons_self s rest)
      cases b
      · rw [HasValidSignaturesBy.checkSigners, hb]
        simp
      · rw [HasValidSignaturesBy.checkSigners, hb]
        simp only [Bool.not_true, Bool.false_eq_true, if_false]
        exact ih (fun s' hs' => h s' (List.mem_cons_of_mem s hs'))

/-- With a total membership resolver, the signer loop is satisfied exactly
when every queried signer is a member. -/
lemma checkSigners_satisfied_iff (isActor : String → Except String Bool)
    (order : List String)
    (h : ∀ s ∈ order, ∃ b, isActor s = Except.ok b) :
    ((HasValidSignaturesBy.checkSigners isActor order).satisfied = true ↔
      ∀ s ∈ order, isActor s = Except.ok true) := by
  induction order with
  | nil => simp [HasValidSignaturesBy.checkSigners]
  | cons s rest ih =>
      obtain ⟨b, hb⟩ := h s (List.mem_cons_self s rest)
      cases b
      · rw [HasValidSignaturesBy.checkSigners, hb]
        simp only [Bool.not_false, if_true]
        constructor
        · intro hfalse
          exact absurd hfalse (by simp)
        · intro hall
          have := hall s (List.mem_cons_self s rest)
          rw [hb] at this
          simp at this
      · rw [HasValidSignaturesBy.checkSigners, hb]
        simp only [Bool.not_true, Bool.false_eq_true, if_false]
        rw [ih (fun s' hs' => h s' (List.mem_cons_of_mem s hs'))]
        constructor
        · intro hall s' hs'
          rcases List.mem_cons.mp hs' with he | hm
          · rw [he, hb]
          · exact hall s' hm
        · intro hall s' hs'
          exact hall s' (List.mem_cons_of_mem s hs')

/-- The key loop is satisfied exactly when every queried key is
allow-listed. -/
lemma checkKeys_satisfied_iff (keyIDs : List String) (order : List String) :
    ((HasValidSignaturesByKeys.checkKeys keyIDs order).satisfied = true ↔
      ∀ k ∈ order, HasValidSignaturesByKeys.keyAllowed keyIDs k = true) := by
  induction order with
  | nil => simp [HasValidSignaturesByKeys.checkKeys]
  | cons k rest ih =>
      by_cases hk : HasValidSignaturesByKeys.keyAllowed keyIDs k = true
      · rw [HasValidSignaturesByKeys.checkKeys, hk]
        simp only [Bool.not_true, Bool.false_eq_true, if_false]
        rw [ih]
        constructor
        · intro hall k' hk'
          rcases List.mem_cons.mp hk' with he | hm
          · rw [he]; exact hk
          · exact hall k' hm
        · intro hall k' hk'
          exact hall k' (List.mem_cons_of_mem k hk')
      · have hk' : HasValidSignaturesByKeys.keyAllowed keyIDs k = false := by
          cases hb : HasValidSignaturesByKeys.keyAllowed keyIDs k
          · rfl
          · exact absurd hb hk
        rw [HasValidSignaturesByKeys.checkKeys, hk']
        simp only [Bool.not_false, if_true]
        constructor
        · intro hfalse
          exact absurd hfalse (by simp)
        · intro hall
          exact absurd (hall k (List.mem_cons_self k rest)) hk

/-! ### Claim theorems -/

/-- C4: `hasValidSignature` yields `(invalid, "Commit <short-sha> has no
signature")` when the signature is absent, `(invalid, "Commit <short-sha>
has an invalid signature due to <State>")` when it is present with
`IsValid=false`, and `(valid, "")` otherwise, where the short SHA is the
first 10 characters of the commit's SHA. -/
theorem C4_hasValidSignature_cases (c : Commit) :
    (c.signature = none →
      hasValidSignature c =
        (false, "Commit " ++ c.sha.take 10 ++ " has no signature"))
    ∧ (∀ sig, c.signature = some sig → sig.isValid = false →
      hasValidSignature c =
        (false, "Commit " ++ c.sha.take 10 ++
          " has an invalid signature due to " ++ sig.state))
    ∧ (∀ sig, c.signature = some sig → sig.isValid = true →
      hasValidSignature c = (true, "")) := by
  refine ⟨?_, ?_, ?_⟩
  · intro hn
    simp [hasValidSignature, hn]
  · intro sig hs hv
    simp [hasValidSignature, hs, hv]
  · intro sig hs hv
    simp [hasValidSignature, hs, hv]

/-- Witness for C4 at three concrete commits: one without a signature, one
with an invalid signature, one with a valid signature. -/
theorem C4_hasValidSignature_cases_witness :
    hasValidSignature ⟨"abcdefghijkl", none⟩ =
      (false, "Commit abcdefghij has no signature")
    ∧ hasValidSignature
        ⟨"0123456789ab", some ⟨SignatureType.gpg, false, "bad_email", "a", "k"⟩⟩ =
      (false, "Commit 0123456789 has an invalid signature due to bad_email")
    ∧ hasValidSignature
        ⟨"fedcba987654", some ⟨SignatureType.gpg, true, "", "a", "k"⟩⟩ =
      (true, "") := by
  refine ⟨?_, ?_, ?_⟩
  · have h := (C4_hasValidSignature_cases ⟨"abcdefghijkl", none⟩).1 rfl
    simpa using h
  · have h := (C4_hasValidSignature_cases
      ⟨"0123456789ab", some ⟨SignatureType.gpg, false, "bad_email", "a", "k"⟩⟩).2.1
      ⟨SignatureType.gpg, false, "bad_email", "a", "k"⟩ rfl rfl
    simpa using h
  · have h := (C4_hasValidSignature_cases
      ⟨"fedcba987654", some ⟨SignatureType.gpg, true, "", "a", "k"⟩⟩).2.2
      ⟨SignatureType.gpg, true, "", "a", "k"⟩ rfl rfl
    simpa using h

/-- C10: `Trigger` returns the pull-request event category for `Title` and
the commit event category for each signature predicate, for every
configuration. -/
theorem C10_triggers :
    (∀ pred : Title.Config, Title.TriggerOf pred = Trigger.pullRequest)
    ∧ (∀ pred : Bool, HasValidSignatures.TriggerOf pred = Trigger.commit)
    ∧ HasValidSignaturesBy.TriggerOf = Trigger.commit
    ∧ (∀ keyIDs : List String,
        HasValidSignaturesByKeys.TriggerOf keyIDs = Trigger.commit) :=
  ⟨fun _ => rfl, fun _ => rfl, rfl, fun _ => rfl⟩

/-- C5: `Title.Evaluate` is satisfied citing a Match pattern when some
pattern in the (necessarily non-empty) `Matches` list matches the title;
otherwise satisfied citing a NotMatch pattern when `NotMatches` is non-empty
and none of its patterns match; `Matches` is checked strictly first; when
both lists are empty or neither branch succeeds, the result is unsatisfied
with empty reason and no error. -/
theorem C5_title_evaluate (pred : Title.Config) (prctx : PullContext) :
    ((∃ p ∈ pred.matchList, p prctx.title = true) →
      Title.Evaluate pred prctx =
        ⟨true, "PR Title matches a Match pattern", none⟩)
    ∧ ((¬ ∃ p ∈ pred.matchList, p prctx.title = true) →
      pred.notMatchList ≠ [] →
      (∀ p ∈ pred.notMatchList, p prctx.title = false) →
      Title.Evaluate pred prctx =
        ⟨true, "PR Title doesn't match a NotMatch pattern", none⟩)
    ∧ ((¬ ∃ p ∈ pred.matchList, p prctx.title = true) →
      (pred.notMatchList = [] ∨ ∃ p ∈ pred.notMatchList, p prctx.title = true) →
      Title.Evaluate pred prctx = ⟨false, "", none⟩) := by
  refine ⟨?_, ?_, ?_⟩
  · rintro ⟨p, hp, hpt⟩
    have hm : Title.anyMatches pred.matchList prctx.title = true :=
      List.any_eq_true.mpr ⟨p, hp, hpt⟩
    have hlen : 0 < pred.matchList.length :=
      List.length_pos.mpr (List.ne_nil_of_mem hp)
    rw [Title.Evaluate, if_pos ⟨hlen, hm⟩]
  · intro hno hne hall
    have hm : Title.anyMatches pred.matchList prctx.title = false := by
      cases hb : Title.anyMatches pred.matchList prctx.title
      · rfl
      · exact absurd (List.any_eq_true.mp hb) hno
    have hnm : Title.anyMatches pred.notMatchList prctx.title = false := by
      cases hb : Title.anyMatches pred.notMatchList prctx.title
      · rfl
      · obtain ⟨p, hp, hpt⟩ := List.any_eq_true.mp hb
        rw [hall p hp] at hpt
        exact absurd hpt (by simp)
    have hlen : 0 < pred.notMatchList.length :=
      List.length_pos.mpr hne
    rw [Title.Evaluate, if_neg (by simp [hm]), if_pos ⟨hlen, by simp [hnm]⟩]
  · intro hno hcase
    have hm : Title.anyMatches pred.matchList prctx.title = false := by
      cases hb : Title.anyMatches pred.matchList prctx.title
      · rfl
      · exact absurd (List.any_eq_true.mp hb) hno
    rw [Title.Evaluate, if_neg (by simp [hm])]
    rcases hcase with hnil | ⟨p, hp, hpt⟩
    · rw [if_neg (by simp [hnil])]
    · have hnm : Title.anyMatches pred.notMatchList prctx.title = true :=
        List.any_eq_true.mpr ⟨p, hp, hpt⟩
      rw [if_neg (by simp [hnm])]

/-- Witness for C5 on concrete pattern lists and titles, exercising all
three branches (including the empty-configuration branch). -/
theorem C5_title_evaluate_witness :
    Title.Evaluate ⟨[fun s => s == "feat: add x"], []⟩ ⟨"feat: add x", Except.ok []⟩ =
      ⟨true, "PR Title matches a Match pattern", none⟩
    ∧ Title.Evaluate ⟨[], [fun s => s == "WIP: draft"]⟩ ⟨"ready", Except.ok []⟩ =
      ⟨true, "PR Title doesn't match a NotMatch pattern", none⟩
    ∧ Title.Evaluate ⟨[], []⟩ ⟨"anything", Except.ok []⟩ = ⟨false, "", none⟩ := by
  refine ⟨?_, ?_, ?_⟩
  · exact (C5_title_evaluate ⟨[fun s => s == "feat: add x"], []⟩
      ⟨"feat: add x", Except.ok []⟩).1
      ⟨fun s => s == "feat: add x", by simp, by decide⟩
  · exact (C5_title_evaluate ⟨[], [fun s => s == "WIP: draft"]⟩
      ⟨"ready", Except.ok []⟩).2.1 (by simp) (by simp) (by decide)
  · exact (C5_title_evaluate ⟨[], []⟩ ⟨"anything", Except.ok []⟩).2.2
      (by simp) (Or.inl rfl)

/-- C1: `HasValidSignatures(true).Evaluate` scans commits in order and, at
the first invalid commit, returns unsatisfied with that commit's reason,
independently of the later commits; with every commit valid it is satisfied
with empty reason.  `HasValidSignatures(false).Evaluate` returns satisfied
with empty reason at the first invalid commit, and unsatisfied with the
all-valid message when every commit is valid. -/
theorem C1_hasValidSignatures_evaluate (pred : Bool) (prctx : PullContext)
    (commits : List Commit)
    (hc : prctx.commits = Except.ok commits) :
    ((∀ pre c post, commits = pre ++ c :: post →
      (∀ c' ∈ pre, (hasValidSignature c').1 = true) →
      (hasValidSignature c).1 = false →
      HasValidSignatures.Evaluate pred prctx =
        if pred then ⟨false, (hasValidSignature c).2, none⟩
        else ⟨true, "", none⟩)
    ∧ ((∀ c ∈ commits, (hasValidSignature c).1 = true) →
      HasValidSignatures.Evaluate pred prctx =
        if pred then ⟨true, "", none⟩
        else ⟨false, "All commits are signed and have valid signatures",
          none⟩)) := by
  constructor
  · intro pre c post hsplit hpre hinv
    rw [HasValidSignatures.Evaluate, hc, hsplit]
    exact hvs_loop_first_invalid pred pre c post hpre hinv
  · intro hall
    rw [HasValidSignatures.Evaluate, hc]
    exact hvs_loop_all_valid pred commits hall

/-- Witness for C1: with `required=true` over a valid commit followed by an
unsigned commit and a trailing commit, evaluation is unsatisfied with the
unsigned commit's reason; with `required=false` over a single valid commit,
evaluation is unsatisfied with the all-valid message. -/
theorem C1_hasValidSignatures_evaluate_witness :
    HasValidSignatures.Evaluate true
      ⟨"", Except.ok
        [⟨"aaaaaaaaaaaa", some ⟨SignatureType.gpg, true, "", "alice", "k1"⟩⟩,
         ⟨"bbbbbbbbbbbb", none⟩,
         ⟨"cccccccccccc", none⟩]⟩ =
      ⟨false, "Commit bbbbbbbbbb has no signature", none⟩
    ∧ HasValidSignatures.Evaluate false
      ⟨"", Except.ok
        [⟨"aaaaaaaaaaaa", some ⟨SignatureType.gpg, true, "", "alice", "k1"⟩⟩]⟩ =
      ⟨false, "All commits are signed and have valid signatures", none⟩ := by
  constructor
  · have h := (C1_hasValidSignatures_evaluate true
      ⟨"", Except.ok
        [⟨"aaaaaaaaaaaa", some ⟨SignatureType.gpg, true, "", "alice", "k1"⟩⟩,
         ⟨"bbbbbbbbbbbb", none⟩,
         ⟨"cccccccccccc", none⟩]⟩ _ rfl).1
      [⟨"aaaaaaaaaaaa", some ⟨SignatureType.gpg, true, "", "alice", "k1"⟩⟩]
      ⟨"bbbbbbbbbbbb", none⟩
      [⟨"cccccccccccc", none⟩] rfl (by decide) (by decide)
    simpa using h
  · have h := (C1_hasValidSignatures_evaluate false
      ⟨"", Except.ok
        [⟨"aaaaaaaaaaaa", some ⟨SignatureType.gpg, true, "", "alice", "k1"⟩⟩]⟩
      _ rfl).2 (by decide)
    simpa using h

/-- C2: over a commit list whose commits all pass the validity primitive,
`HasValidSignaturesBy.Evaluate` queries `IsActor` on the distinct signer set
(the map iteration order is a permutation of the deduplicated signers): the
first non-member in that order yields unsatisfied naming that signer, and
all-members yields satisfied with empty reason; if some commit fails the
validity primitive the result is that commit's reason, independently of the
later commits and of the membership resolver. -/
theorem C2_hasValidSignaturesBy_evaluate
    (isActor : String → Except String Bool) (prctx : PullContext)
    (commits : List Commit) (order : List String)
    (hc : prctx.commits = Except.ok commits) :
    ((∀ c ∈ commits, (hasValidSignature c).1 = true) →
      order.Perm (HasValidSignaturesBy.distinctSigners commits) →
      ((∀ pre s rest, order = pre ++ s :: rest →
        (∀ s' ∈ pre, isActor s' = Except.ok true) →
        isActor s = Except.ok false →
        HasValidSignaturesBy.EvaluateWith isActor prctx order =
          ⟨false, "Contributor \"" ++ s ++
            "\" does not meet the required membership conditions for signing",
            none⟩)
      ∧ ((∀ s ∈ order, isActor s = Except.ok true) →
        HasValidSignaturesBy.EvaluateWith isActor prctx order =
          ⟨true, "", none⟩)))
    ∧ (∀ pre c post, commits = pre ++ c :: post →
      (∀ c' ∈ pre, (hasValidSignature c').1 = true) →
      (hasValidSignature c).1 = false →
      HasValidSignaturesBy.EvaluateWith isActor prctx order =
        ⟨false, (hasValidSignature c).2, none⟩) := by
  constructor
  · intro hall _hperm
    have hscan := by_scan_all_valid commits [] hall
    constructor
    · intro pre s rest hsplit hpre hs
      simp only [HasValidSignaturesBy.EvaluateWith, hc, hscan, hsplit]
      exact checkSigners_first_nonmember isActor pre s rest hpre hs
    · intro hmem
      simp only [HasValidSignaturesBy.EvaluateWith, hc, hscan]
      exact checkSigners_all_members isActor order hmem
  · intro pre c post hsplit hpre hinv
    simp only [HasValidSignaturesBy.EvaluateWith, hc, hsplit,
      by_scan_first_invalid pre c post [] hpre hinv]

/-- Witness for C2: two valid commits by distinct signers with one
non-member yield unsatisfied naming the non-member; an unsigned second
commit yields its reason regardless of the resolver. -/
theorem C2_hasValidSignaturesBy_evaluate_witness :
    HasValidSignaturesBy.EvaluateWith (fun s => Except.ok (s == "alice"))
      ⟨"", Except.ok
        [⟨"aaaaaaaaaaaa", some ⟨SignatureType.gpg, true, "", "alice", "k1"⟩⟩,
         ⟨"bbbbbbbbbbbb", some ⟨SignatureType.gpg, true, "", "bob", "k2"⟩⟩]⟩
      ["alice", "bob"] =
      ⟨false, "Contributor \"bob\" does not meet the required membership conditions for signing",
        none⟩
    ∧ HasValidSignaturesBy.EvaluateWith (fun s => Except.ok (s == "alice"))
      ⟨"", Except.ok
        [⟨"aaaaaaaaaaaa", some ⟨SignatureType.gpg, true, "", "alice", "k1"⟩⟩,
         ⟨"bbbbbbbbbbbb", none⟩]⟩
      ["alice"] =
      ⟨false, "Commit bbbbbbbbbb has no signature", none⟩ := by
  constructor
  · have h := ((C2_hasValidSignaturesBy_evaluate
      (fun s => Except.ok (s == "alice"))
      ⟨"", Except.ok
        [⟨"aaaaaaaaaaaa", some ⟨SignatureType.gpg, true, "", "alice", "k1"⟩⟩,
         ⟨"bbbbbbbbbbbb", some ⟨SignatureType.gpg, true, "", "bob", "k2"⟩⟩]⟩
      _ ["alice", "bob"] rfl).1 (by decide) (by decide)).1
      ["alice"] "bob" [] rfl (by decide) (by decide)
    simpa using h
  · have h := (C2_hasValidSignaturesBy_evaluate
      (fun s => Except.ok (s == "alice"))
      ⟨"", Except.ok
        [⟨"aaaaaaaaaaaa", some ⟨SignatureType.gpg, true, "", "alice", "k1"⟩⟩,
         ⟨"bbbbbbbbbbbb", none⟩]⟩
      _ ["alice"] rfl).2
      [⟨"aaaaaaaaaaaa", some ⟨SignatureType.gpg, true, "", "alice", "k1"⟩⟩]
      ⟨"bbbbbbbbbbbb", none⟩ [] rfl (by decide) (by decide)
    simpa using h

/-- C3: `HasValidSignaturesByKeys.Evaluate` returns unsatisfied with the
non-GPG message at the first commit whose signature passes the validity
primitive but is not of GPG type (regardless of the configured `KeyIDs`,
with `IsValid=true`); over commits that are all valid and GPG-signed it
collects the distinct `KeyID` set, returns unsatisfied naming the first key
(in iteration order) not exactly matching an entry of `KeyIDs`, and is
satisfied with empty reason when every distinct key is allow-listed. -/
theorem C3_hasValidSignaturesByKeys_evaluate (prctx : PullContext)
    (commits : List Commit) (order : List String)
    (hc : prctx.commits = Except.ok commits) :
    ((∀ pre c post, commits = pre ++ c :: post →
      (∀ c' ∈ pre, (hasValidSignature c').1 = true ∧
        commitSigType c' = SignatureType.gpg) →
      (hasValidSignature c).1 = true →
      commitSigType c ≠ SignatureType.gpg →
      ∀ keyIDs : List String,
        HasValidSignaturesByKeys.EvaluateWith keyIDs prctx order =
          ⟨false, "Commit " ++ c.sha.take 10 ++
            " signature is not a GPG signature", none⟩)
    ∧ ((∀ c ∈ commits, (hasValidSignature c).1 = true ∧
        commitSigType c = SignatureType.gpg) →
      order.Perm (HasValidSignaturesByKeys.distinctKeys commits) →
      ∀ keyIDs : List String,
      ((∀ pre k rest, order = pre ++ k :: rest →
        (∀ k' ∈ pre, HasValidSignaturesByKeys.keyAllowed keyIDs k' = true) →
        HasValidSignaturesByKeys.keyAllowed keyIDs k = false →
        HasValidSignaturesByKeys.EvaluateWith keyIDs prctx order =
          ⟨false, "Key \"" ++ k ++
            "\" does not meet the required key conditions for signing", none⟩)
      ∧ ((∀ k ∈ order, HasValidSignaturesByKeys.keyAllowed keyIDs k = true) →
        HasValidSignaturesByKeys.EvaluateWith keyIDs prctx order =
          ⟨true, "", none⟩)))) := by
  constructor
  · intro pre c post hsplit hpre hcv hct keyIDs
    simp only [HasValidSignaturesByKeys.EvaluateWith, hc, hsplit,
      keys_scan_first_non_gpg pre c post [] hpre hcv hct]
  · intro hall _hperm keyIDs
    have hscan := keys_scan_all_valid_gpg commits [] hall
    constructor
    · intro pre k rest hsplit hpre hk
      simp only [HasValidSignaturesByKeys.EvaluateWith, hc, hscan, hsplit]
      exact checkKeys_first_missing keyIDs pre k rest hpre hk
    · intro hmem
      simp only [HasValidSignaturesByKeys.EvaluateWith, hc, hscan]
      exact checkKeys_all_allowed keyIDs order hmem

/-- Witness for C3: a valid SSH-signed commit after a valid GPG commit is
rejected as non-GPG even with its key allow-listed; an all-GPG list with a
key outside the allow-list names that key; an all-GPG list with all keys
allow-listed is satisfied. -/
theorem C3_hasValidSignaturesByKeys_evaluate_witness :
    HasValidSignaturesByKeys.EvaluateWith ["k1", "k2"]
      ⟨"", Except.ok
        [⟨"aaaaaaaaaaaa", some ⟨SignatureType.gpg, true, "", "alice", "k1"⟩⟩,
         ⟨"bbbbbbbbbbbb", some ⟨SignatureType.ssh, true, "", "bob", "k2"⟩⟩]⟩
      ["k1"] =
      ⟨false, "Commit bbbbbbbbbb signature is not a GPG signature", none⟩
    ∧ HasValidSignaturesByKeys.EvaluateWith ["k1"]
      ⟨"", Except.ok
        [⟨"aaaaaaaaaaaa", some ⟨SignatureType.gpg, true, "", "alice", "k1"⟩⟩,
         ⟨"bbbbbbbbbbbb", some ⟨SignatureType.gpg, true, "", "bob", "k2"⟩⟩]⟩
      ["k1", "k2"] =
      ⟨false, "Key \"k2\" does not meet the required key conditions for signing",
        none⟩
    ∧ HasValidSignaturesByKeys.EvaluateWith ["k1", "k2"]
      ⟨"", Except.ok
        [⟨"aaaaaaaaaaaa", some ⟨SignatureType.gpg, true, "", "alice", "k1"⟩⟩,
         ⟨"bbbbbbbbbbbb", some ⟨SignatureType.gpg, true, "", "bob", "k2"⟩⟩]⟩
      ["k1", "k2"] =
      ⟨true, "", none⟩ := by
  refine ⟨?_, ?_, ?_⟩
  · have h := (C3_hasValidSignaturesByKeys_evaluate
      ⟨"", Except.ok
        [⟨"aaaaaaaaaaaa", some ⟨SignatureType.gpg, true, "", "alice", "k1"⟩⟩,
         ⟨"bbbbbbbbbbbb", some ⟨SignatureType.ssh, true, "", "bob", "k2"⟩⟩]⟩
      _ ["k1"] rfl).1
      [⟨"aaaaaaaaaaaa", some ⟨SignatureType.gpg, true, "", "alice", "k1"⟩⟩]
      ⟨"bbbbbbbbbbbb", some ⟨SignatureType.ssh, true, "", "bob", "k2"⟩⟩
      [] rfl (by decide) (by decide) (by decide) ["k1", "k2"]
    simpa using h
  · have h := ((C3_hasValidSignaturesByKeys_evaluate
      ⟨"", Except.ok
        [⟨"aaaaaaaaaaaa", some ⟨SignatureType.gpg, true, "", "alice", "k1"⟩⟩,
         ⟨"bbbbbbbbbbbb", some ⟨SignatureType.gpg, true, "", "bob", "k2"⟩⟩]⟩
      _ ["k1", "k2"] rfl).2 (by decide) (by decide) ["k1"]).1
      ["k1"] "k2" [] rfl (by decide) (by decide)
    simpa using h
  · have h := ((C3_hasValidSignaturesByKeys_evaluate
      ⟨"", Except.ok
        [⟨"aaaaaaaaaaaa", some ⟨SignatureType.gpg, true, "", "alice", "k1"⟩⟩,
         ⟨"bbbbbbbbbbbb", some ⟨SignatureType.gpg, true, "", "bob", "k2"⟩⟩]⟩
      _ ["k1", "k2"] rfl).2 (by decide) (by decide) ["k1", "k2"]).2 (by decide)
    simpa using h

/-- C9: on an empty commit list (with the fetch succeeding),
`HasValidSignatures(true)`, `HasValidSignaturesBy` (for every membership
resolver) and `HasValidSignaturesByKeys` (for every allow-list) are
satisfied with empty reason and no failure, while `HasValidSignatures(false)`
is unsatisfied with the all-valid message. -/
theorem C9_empty_commit_list (prctx : PullContext)
    (hc : prctx.commits = Except.ok ([] : List Commit)) :
    HasValidSignatures.Evaluate true prctx = ⟨true, "", none⟩
    ∧ HasValidSignatures.Evaluate false prctx =
      ⟨false, "All commits are signed and have valid signatures", none⟩
    ∧ (∀ (isActor : String → Except String Bool) (order : List String),
      order.Perm (HasValidSignaturesBy.distinctSigners []) →
      HasValidSignaturesBy.EvaluateWith isActor prctx order =
        ⟨true, "", none⟩)
    ∧ (∀ (keyIDs : List String) (order : List String),
      order.Perm (HasValidSignaturesByKeys.distinctKeys []) →
      HasValidSignaturesByKeys.EvaluateWith keyIDs prctx order =
        ⟨true, "", none⟩) := by
  refine ⟨?_, ?_, ?_, ?_⟩
  · simp [HasValidSignatures.Evaluate, hc, HasValidSignatures.loop]
  · simp [HasValidSignatures.Evaluate, hc, HasValidSignatures.loop]
  · intro isActor order hperm
    have horder : order = [] := List.Perm.eq_nil hperm
    subst horder
    simp [HasValidSignaturesBy.EvaluateWith, hc,
      HasValidSignaturesBy.scanCommits, HasValidSignaturesBy.checkSigners]
  · intro keyIDs order hperm
    have horder : order = [] := List.Perm.eq_nil hperm
    subst horder
    simp [HasValidSignaturesByKeys.EvaluateWith, hc,
      HasValidSignaturesByKeys.scanCommits, HasValidSignaturesByKeys.checkKeys]

/-- Witness for C9 at a concrete context with an empty commit list. -/
theorem C9_empty_commit_list_witness :
    HasValidSignatures.Evaluate true ⟨"t", Except.ok []⟩ = ⟨true, "", none⟩
    ∧ HasValidSignatures.Evaluate false ⟨"t", Except.ok []⟩ =
      ⟨false, "All commits are signed and have valid signatures", none⟩
    ∧ HasValidSignaturesBy.EvaluateWith (fun _ => Except.error "boom")
      ⟨"t", Except.ok []⟩ [] = ⟨true, "", none⟩
    ∧ HasValidSignaturesByKeys.EvaluateWith [] ⟨"t", Except.ok []⟩ [] =
      ⟨true, "", none⟩ := by
  have h := C9_empty_commit_list ⟨"t", Except.ok []⟩ rfl
  exact ⟨h.1, h.2.1,
    h.2.2.1 (fun _ => Except.error "boom") [] (List.Perm.refl _),
    h.2.2.2 [] [] (List.Perm.refl _)⟩

/-- C6 counterexample: `Title.Evaluate` on a matching Match pattern returns
a satisfied result carrying a non-empty reason (and no failure), so a
satisfied result does not always carry an empty reason. -/
theorem C6_counterexample_title_satisfied_nonempty_reason :
    (Title.Evaluate ⟨[fun _ => true], []⟩
      ⟨"any title", Except.ok []⟩).satisfied = true
    ∧ (Title.Evaluate ⟨[fun _ => true], []⟩
      ⟨"any title", Except.ok []⟩).reason ≠ ""
    ∧ (Title.Evaluate ⟨[fun _ => true], []⟩
      ⟨"any title", Except.ok []⟩).err = none := by
  refine ⟨rfl, by decide, rfl⟩

/-- C6 amended: for the three signature predicates, on every evaluation that
completes without failure the reason is non-empty exactly when the result is
unsatisfied (the all-valid branch of `HasValidSignatures(false)` being one
such unsatisfied outcome); `Title` never fails and instead carries a
non-empty reason exactly when satisfied. -/
theorem C6_reason_nonempty_iff_amended :
    (∀ (pred : Bool) (prctx : PullContext),
      (HasValidSignatures.Evaluate pred prctx).err = none →
      ((HasValidSignatures.Evaluate pred prctx).reason ≠ "" ↔
        (HasValidSignatures.Evaluate pred prctx).satisfied = false))
    ∧ (∀ (isActor : String → Except String Bool) (prctx : PullContext)
      (order : List String),
      (HasValidSignaturesBy.EvaluateWith isActor prctx order).err = none →
      ((HasValidSignaturesBy.EvaluateWith isActor prctx order).reason ≠ "" ↔
        (HasValidSignaturesBy.EvaluateWith isActor prctx order).satisfied
          = false))
    ∧ (∀ (keyIDs : List String) (prctx : PullContext) (order : List String),
      (HasValidSignaturesByKeys.EvaluateWith keyIDs prctx order).err = none →
      ((HasValidSignaturesByKeys.EvaluateWith keyIDs prctx order).reason ≠ ""
        ↔ (HasValidSignaturesByKeys.EvaluateWith keyIDs prctx order).satisfied
          = false))
    ∧ (∀ (pred : Title.Config) (prctx : PullContext),
      (Title.Evaluate pred prctx).err = none
      ∧ ((Title.Evaluate pred prctx).reason ≠ "" ↔
        (Title.Evaluate pred prctx).satisfied = true)) := by
  refine ⟨?_, ?_, ?_, ?_⟩
  · intro pred prctx herr
    match hcc : prctx.commits with
    | Except.error e =>
        rw [HasValidSignatures.Evaluate, hcc] at herr
        simp at herr
    | Except.ok commits =>
        rw [HasValidSignatures.Evaluate, hcc]
        exact hvs_loop_reason_iff pred commits
  · intro isActor prctx order herr
    match hcc : prctx.commits with
    | Except.error e =>
        rw [HasValidSignaturesBy.EvaluateWith, hcc] at herr
        simp at herr
    | Except.ok commits =>
        simp only [HasValidSignaturesBy.EvaluateWith, hcc] at herr ⊢
        match hscan : HasValidSignaturesBy.scanCommits commits [] with
        | Sum.inl desc =>
            have hne := by_scan_inl_ne_empty commits [] desc hscan
            constructor
            · intro _; rfl
            · intro _; exact hne
        | Sum.inr signers =>
            rw [hscan] at herr
            exact checkSigners_reason_iff isActor order herr
  · intro keyIDs prctx order herr
    match hcc : prctx.commits with
    | Except.error e =>
        rw [HasValidSignaturesByKeys.EvaluateWith, hcc] at herr
        simp at herr
    | Except.ok commits =>
        simp only [HasValidSignaturesByKeys.EvaluateWith, hcc] at herr ⊢
        match hscan : HasValidSignaturesByKeys.scanCommits commits [] with
        | Sum.inl desc =>
            have hne := keys_scan_inl_ne_empty commits [] desc hscan
            constructor
            · intro _; rfl
            · intro _; exact hne
        | Sum.inr keys =>
            exact checkKeys_reason_iff keyIDs order
  · intro pred prctx
    by_cases h1 : 0 < pred.matchList.length ∧
        Title.anyMatches pred.matchList prctx.title
    · rw [Title.Evaluate, if_pos h1]
      refine ⟨rfl, ?_⟩
      constructor
      · intro _; rfl
      · intro _; decide
    · rw [Title.Evaluate, if_neg h1]
      by_cases h2 : 0 < pred.notMatchList.length ∧
          ¬ Title.anyMatches pred.notMatchList prctx.title
      · rw [if_pos h2]
        refine ⟨rfl, ?_⟩
        constructor
        · intro _; rfl
        · intro _; decide
      · rw [if_neg h2]
        refine ⟨rfl, ?_⟩
        constructor
        · intro hne; exact absurd rfl hne
        · intro hsat; exact absurd hsat (by simp)

/-- Witness for the amended C6 at concrete unsatisfied and satisfied
evaluations of each predicate. -/
theorem C6_reason_nonempty_iff_amended_witness :
    ((HasValidSignatures.Evaluate true
      ⟨"", Except.ok [⟨"bbbbbbbbbbbb", none⟩]⟩).reason ≠ "" ↔
      (HasValidSignatures.Evaluate true
        ⟨"", Except.ok [⟨"bbbbbbbbbbbb", none⟩]⟩).satisfied = false)
    ∧ ((HasValidSignaturesBy.EvaluateWith (fun _ => Except.ok true)
      ⟨"", Except.ok []⟩ []).reason ≠ "" ↔
      (HasValidSignaturesBy.EvaluateWith (fun _ => Except.ok true)
        ⟨"", Except.ok []⟩ []).satisfied = false)
    ∧ ((HasValidSignaturesByKeys.EvaluateWith []
      ⟨"", Except.ok []⟩ []).reason ≠ "" ↔
      (HasValidSignaturesByKeys.EvaluateWith []
        ⟨"", Except.ok []⟩ []).satisfied = false)
    ∧ ((Title.Evaluate ⟨[], []⟩ ⟨"t", Except.ok []⟩).err = none
    ∧ ((Title.Evaluate ⟨[], []⟩ ⟨"t", Except.ok []⟩).reason ≠ "" ↔
      (Title.Evaluate ⟨[], []⟩ ⟨"t", Except.ok []⟩).satisfied = true)) :=
  ⟨C6_reason_nonempty_iff_amended.1 true
    ⟨"", Except.ok [⟨"bbbbbbbbbbbb", none⟩]⟩ rfl,
   C6_reason_nonempty_iff_amended.2.1 (fun _ => Except.ok true)
    ⟨"", Except.ok []⟩ [] rfl,
   C6_reason_nonempty_iff_amended.2.2.1 [] ⟨"", Except.ok []⟩ [] rfl,
   C6_reason_nonempty_iff_amended.2.2.2 ⟨[], []⟩ ⟨"t", Except.ok []⟩⟩

/-- C7: evaluation fails exactly on commit-fetch or membership-resolution
failures: a commit-fetch failure propagates wrapped through every signature
predicate; `Title` never fails; with the fetch succeeding (and, for
`HasValidSignaturesBy`, the resolver total on the queried signers) no
failure occurs; a resolver failure on the first-reached queried signer
propagates; and every failure carries the `(false, "")` accompanying value,
distinguishing it from an unsatisfied `(false, reason, no-error)` outcome. -/
theorem C7_failure_propagation :
    (∀ (e : String) (prctx : PullContext), prctx.commits = Except.error e →
      ∀ (pred : Bool) (isActor : String → Except String Bool)
        (keyIDs : List String) (order : List String),
      HasValidSignatures.Evaluate pred prctx =
        ⟨false, "", some ("failed to get commits: " ++ e)⟩
      ∧ HasValidSignaturesBy.EvaluateWith isActor prctx order =
        ⟨false, "", some ("failed to get commits: " ++ e)⟩
      ∧ HasValidSignaturesByKeys.EvaluateWith keyIDs prctx order =
        ⟨false, "", some ("failed to get commits: " ++ e)⟩)
    ∧ (∀ (pred : Title.Config) (prctx : PullContext),
      (Title.Evaluate pred prctx).err = none)
    ∧ (∀ (pred : Bool) (prctx : PullContext) (commits : List Commit),
      prctx.commits = Except.ok commits →
      (HasValidSignatures.Evaluate pred prctx).err = none)
    ∧ (∀ (isActor : String → Except String Bool) (prctx : PullContext)
        (commits : List Commit) (order : List String),
      prctx.commits = Except.ok commits →
      (∀ s ∈ order, ∃ b, isActor s = Except.ok b) →
      (HasValidSignaturesBy.EvaluateWith isActor prctx order).err = none)
    ∧ (∀ (keyIDs : List String) (prctx : PullContext) (commits : List Commit)
        (order : List String),
      prctx.commits = Except.ok commits →
      (HasValidSignaturesByKeys.EvaluateWith keyIDs prctx order).err = none)
    ∧ (∀ (isActor : String → Except String Bool) (prctx : PullContext)
        (commits : List Commit) (pre : List String) (s : String)
        (rest : List String) (e : String),
      prctx.commits = Except.ok commits →
      (∀ c ∈ commits, (hasValidSignature c).1 = true) →
      (∀ s' ∈ pre, isActor s' = Except.ok true) →
      isActor s = Except.error e →
      HasValidSignaturesBy.EvaluateWith isActor prctx (pre ++ s :: rest) =
        ⟨false, "", some e⟩)
    ∧ (∀ (pred : Bool) (prctx : PullContext) (e : String),
      (HasValidSignatures.Evaluate pred prctx).err = some e →
      HasValidSignatures.Evaluate pred prctx = ⟨false, "", some e⟩)
    ∧ (∀ (isActor : String → Except String Bool) (prctx : PullContext)
        (order : List String) (e : String),
      (HasValidSignaturesBy.EvaluateWith isActor prctx order).err = some e →
      HasValidSignaturesBy.EvaluateWith isActor prctx order =
        ⟨false, "", some e⟩)
    ∧ (∀ (keyIDs : List String) (prctx : PullContext) (order : List String)
        (e : String),
      (HasValidSignaturesByKeys.EvaluateWith keyIDs prctx order).err = some e →
      HasValidSignaturesByKeys.EvaluateWith keyIDs prctx order =
        ⟨false, "", some e⟩) := by
  refine ⟨?_, ?_, ?_, ?_, ?_, ?_, ?_, ?_, ?_⟩
  · intro e prctx hcc pred isActor keyIDs order
    refine ⟨?_, ?_, ?_⟩
    · rw [HasValidSignatures.Evaluate, hcc]
    · rw [HasValidSignaturesBy.EvaluateWith, hcc]
    · rw [HasValidSignaturesByKeys.EvaluateWith, hcc]
  · intro pred prctx
    rw [Title.Evaluate]
    by_cases h1 : 0 < pred.matchList.length ∧
        Title.anyMatches pred.matchList prctx.title
    · rw [if_pos h1]
    · rw [if_neg h1]
      by_cases h2 : 0 < pred.notMatchList.length ∧
          ¬ Title.anyMatches pred.notMatchList prctx.title
      · rw [if_pos h2]
      · rw [if_neg h2]
  · intro pred prctx commits hcc
    rw [HasValidSignatures.Evaluate, hcc]
    exact hvs_loop_err_none pred commits
  · intro isActor prctx commits order hcc htotal
    simp only [HasValidSignaturesBy.EvaluateWith, hcc]
    match hscan : HasValidSignaturesBy.scanCommits commits [] with
    | Sum.inl desc => rfl
    | Sum.inr signers => exact checkSigners_err_none_of_total isActor order htotal
  · intro keyIDs prctx commits order hcc
    simp only [HasValidSignaturesByKeys.EvaluateWith, hcc]
    match hscan : HasValidSignaturesByKeys.scanCommits commits [] with
    | Sum.inl desc => rfl
    | Sum.inr keys => exact checkKeys_err_none keyIDs order
  · intro isActor prctx commits pre s rest e hcc hall hpre hs
    simp only [HasValidSignaturesBy.EvaluateWith, hcc,
      by_scan_all_valid commits [] hall]
    exact checkSigners_first_error isActor pre s rest e hpre hs
  · intro pred prctx e herr
    match hcc : prctx.commits with
    | Except.error e' =>
        simp only [HasValidSignatures.Evaluate, hcc] at herr ⊢
        simp only [Option.some.injEq] at herr
        rw [herr]
    | Except.ok commits =>
        rw [HasValidSignatures.Evaluate, hcc] at herr
        rw [hvs_loop_err_none pred commits] at herr
        simp at herr
  · intro isActor prctx order e herr
    match hcc : prctx.commits with
    | Except.error e' =>
        simp only [HasValidSignaturesBy.EvaluateWith, hcc] at herr ⊢
        simp only [Option.some.injEq] at herr
        rw [herr]
    | Except.ok commits =>
        simp only [HasValidSignaturesBy.EvaluateWith, hcc] at herr ⊢
        match hscan : HasValidSignaturesBy.scanCommits commits [] with
        | Sum.inl desc =>
            rw [hscan] at herr
            simp at herr
        | Sum.inr signers =>
            rw [hscan] at herr
            exact checkSigners_err_some isActor order e herr
  · intro keyIDs prctx order e herr
    match hcc : prctx.commits with
    | Except.error e' =>
        simp only [HasValidSignaturesByKeys.EvaluateWith, hcc] at herr ⊢
        simp only [Option.some.injEq] at herr
        rw [herr]
    | Except.ok commits =>
        simp only [HasValidSignaturesByKeys.EvaluateWith, hcc] at herr
        match hscan : HasValidSignaturesByKeys.scanCommits commits [] with
        | Sum.inl desc =>
            rw [hscan] at herr
            simp at herr
        | Sum.inr keys =>
            rw [hscan] at herr
            rw [checkKeys_err_none keyIDs order] at herr
            simp at herr

/-- Witness for C7: a failing commit fetch propagates wrapped through each
signature predicate while `Title` still succeeds, and a failing membership
resolution propagates through `HasValidSignaturesBy`. -/
theorem C7_failure_propagation_witness :
    HasValidSignatures.Evaluate true ⟨"t", Except.error "api down"⟩ =
      ⟨false, "", some "failed to get commits: api down"⟩
    ∧ HasValidSignaturesBy.EvaluateWith (fun _ => Except.ok true)
      ⟨"t", Except.error "api down"⟩ [] =
      ⟨false, "", some "failed to get commits: api down"⟩
    ∧ HasValidSignaturesByKeys.EvaluateWith []
      ⟨"t", Except.error "api down"⟩ [] =
      ⟨false, "", some "failed to get commits: api down"⟩
    ∧ (Title.Evaluate ⟨[], []⟩ ⟨"t", Except.error "api down"⟩).err = none
    ∧ HasValidSignaturesBy.EvaluateWith (fun _ => Except.error "team lookup")
      ⟨"t", Except.ok
        [⟨"aaaaaaaaaaaa", some ⟨SignatureType.gpg, true, "", "alice", "k1"⟩⟩]⟩
      ["alice"] =
      ⟨false, "", some "team lookup"⟩ := by
  have hfetch := C7_failure_propagation.1 "api down" ⟨"t", Except.error "api down"⟩
    rfl true (fun _ => Except.ok true) [] []
  have hmem := C7_failure_propagation.2.2.2.2.2.1 (fun _ => Except.error "team lookup")
    ⟨"t", Except.ok
      [⟨"aaaaaaaaaaaa", some ⟨SignatureType.gpg, true, "", "alice", "k1"⟩⟩]⟩
    _ [] "alice" [] "team lookup" rfl (by decide) (by decide) rfl
  exact ⟨hfetch.1, hfetch.2.1, hfetch.2.2,
    C7_failure_propagation.2.1 ⟨[], []⟩ ⟨"t", Except.error "api down"⟩,
    by simpa using hmem⟩

/-- C8 counterexample: with two distinct non-member signers, two iteration
orders of the deduplicated signer set — both legitimate for a Go map —
produce different results (different reasons), so the result is not a pure
function of context plus configuration alone when several distinct signers
fail. -/
theorem C8_counterexample_order_dependent_reason :
    (["alice", "bob"] : List String).Perm
      (HasValidSignaturesBy.distinctSigners
        [⟨"aaaaaaaaaaaa", some ⟨SignatureType.gpg, true, "", "alice", "k1"⟩⟩,
         ⟨"bbbbbbbbbbbb", some ⟨SignatureType.gpg, true, "", "bob", "k2"⟩⟩])
    ∧ (["bob", "alice"] : List String).Perm
      (HasValidSignaturesBy.distinctSigners
        [⟨"aaaaaaaaaaaa", some ⟨SignatureType.gpg, true, "", "alice", "k1"⟩⟩,
         ⟨"bbbbbbbbbbbb", some ⟨SignatureType.gpg, true, "", "bob", "k2"⟩⟩])
    ∧ HasValidSignaturesBy.EvaluateWith (fun _ => Except.ok false)
      ⟨"", Except.ok
        [⟨"aaaaaaaaaaaa", some ⟨SignatureType.gpg, true, "", "alice", "k1"⟩⟩,
         ⟨"bbbbbbbbbbbb", some ⟨SignatureType.gpg, true, "", "bob", "k2"⟩⟩]⟩
      ["alice", "bob"] ≠
      HasValidSignaturesBy.EvaluateWith (fun _ => Except.ok false)
      ⟨"", Except.ok
        [⟨"aaaaaaaaaaaa", some ⟨SignatureType.gpg, true, "", "alice", "k1"⟩⟩,
         ⟨"bbbbbbbbbbbb", some ⟨SignatureType.gpg, true, "", "bob", "k2"⟩⟩]⟩
      ["bob", "alice"] := by
  refine ⟨by decide, by decide, by decide⟩

/-- C8 amended: `Evaluate` is a pure function of context, configuration and
the iteration order over the deduplicated signer/key set; with the order
fixed, re-invocation is identical by definition, and across two orders that
are permutations of each other the satisfied and failure components still
agree (for `HasValidSignaturesBy` provided the membership resolver answers
on every queried signer), only the reported reason may differ. -/
theorem C8_purity_amended (prctx : PullContext) (o1 o2 : List String)
    (hperm : o1.Perm o2) :
    (∀ isActor : String → Except String Bool,
      (∀ s, ∃ b, isActor s = Except.ok b) →
      (HasValidSignaturesBy.EvaluateWith isActor prctx o1).satisfied =
        (HasValidSignaturesBy.EvaluateWith isActor prctx o2).satisfied
      ∧ (HasValidSignaturesBy.EvaluateWith isActor prctx o1).err =
        (HasValidSignaturesBy.EvaluateWith isActor prctx o2).err)
    ∧ (∀ keyIDs : List String,
      (HasValidSignaturesByKeys.EvaluateWith keyIDs prctx o1).satisfied =
        (HasValidSignaturesByKeys.EvaluateWith keyIDs prctx o2).satisfied
      ∧ (HasValidSignaturesByKeys.EvaluateWith keyIDs prctx o1).err =
        (HasValidSignaturesByKeys.EvaluateWith keyIDs prctx o2).err) := by
  constructor
  · intro isActor htotal
    match hcc : prctx.commits with
    | Except.error e =>
        simp [HasValidSignaturesBy.EvaluateWith, hcc]
    | Except.ok commits =>
        simp only [HasValidSignaturesBy.EvaluateWith, hcc]
        match hscan : HasValidSignaturesBy.scanCommits commits [] with
        | Sum.inl desc => exact ⟨rfl, rfl⟩
        | Sum.inr signers =>
            have ht1 : ∀ s ∈ o1, ∃ b, isActor s = Except.ok b :=
              fun s _ => htotal s
            have ht2 : ∀ s ∈ o2, ∃ b, isActor s = Except.ok b :=
              fun s _ => htotal s
            constructor
            · have hiff :
                  ((HasValidSignaturesBy.checkSigners isActor o1).satisfied
                    = true) ↔
                  ((HasValidSignaturesBy.checkSigners isActor o2).satisfied
                    = true) := by
                rw [checkSigners_satisfied_iff isActor o1 ht1,
                  checkSigners_satisfied_iff isActor o2 ht2]
                constructor
                · intro h s hs
                  exact h s (hperm.mem_iff.mpr hs)
                · intro h s hs
                  exact h s (hperm.mem_iff.mp hs)
              cases hb1 : (HasValidSignaturesBy.checkSigners isActor o1).satisfied
              · cases hb2 :
                    (HasValidSignaturesBy.checkSigners isActor o2).satisfied
                · rfl
                · rw [hb1, hb2] at hiff
                  exact absurd (hiff.mpr rfl) (by simp)
              · cases hb2 :
                    (HasValidSignaturesBy.checkSigners isActor o2).satisfied
                · rw [hb1, hb2] at hiff
                  exact absurd (hiff.mp rfl) (by simp)
                · rfl
            · rw [checkSigners_err_none_of_total isActor o1 ht1,
                checkSigners_err_none_of_total isActor o2 ht2]
  · intro keyIDs
    match hcc : prctx.commits with
    | Except.error e =>
        simp [HasValidSignaturesByKeys.EvaluateWith, hcc]
    | Except.ok commits =>
        simp only [HasValidSignaturesByKeys.EvaluateWith, hcc]
        match hscan : HasValidSignaturesByKeys.scanCommits commits [] with
        | Sum.inl desc => exact ⟨rfl, rfl⟩
        | Sum.inr keys =>
            constructor
            · have hiff :
                  ((HasValidSignaturesByKeys.checkKeys keyIDs o1).satisfied
                    = true) ↔
                  ((HasValidSignaturesByKeys.checkKeys keyIDs o2).satisfied
                    = true) := by
                rw [checkKeys_satisfied_iff keyIDs o1,
                  checkKeys_satisfied_iff keyIDs o2]
                constructor
                · intro h k hk
                  exact h k (hperm.mem_iff.mpr hk)
                · intro h k hk
                  exact h k (hperm.mem_iff.mp hk)
              cases hb1 : (HasValidSignaturesByKeys.checkKeys keyIDs o1).satisfied
              · cases hb2 :
                    (HasValidSignaturesByKeys.checkKeys keyIDs o2).satisfied
                · rfl
                · rw [hb1, hb2] at hiff
                  exact absurd (hiff.mpr rfl) (by simp)
              · cases hb2 :
                    (HasValidSignaturesByKeys.checkKeys keyIDs o2).satisfied
                · rw [hb1, hb2] at hiff
                  exact absurd (hiff.mp rfl) (by simp)
                · rfl
            · rw [checkKeys_err_none keyIDs o1, checkKeys_err_none keyIDs o2]

/-- Witness for the amended C8 on the two-non-member context of the
counterexample: the satisfied and failure components agree across the two
iteration orders. -/
theorem C8_purity_amended_witness :
    (HasValidSignaturesBy.EvaluateWith (fun _ => Except.ok false)
      ⟨"", Except.ok
        [⟨"aaaaaaaaaaaa", some ⟨SignatureType.gpg, true, "", "alice", "k1"⟩⟩,
         ⟨"bbbbbbbbbbbb", some ⟨SignatureType.gpg, true, "", "bob", "k2"⟩⟩]⟩
      ["alice", "bob"]).satisfied =
    (HasValidSignaturesBy.EvaluateWith (fun _ => Except.ok false)
      ⟨"", Except.ok
        [⟨"aaaaaaaaaaaa", some ⟨SignatureType.gpg, true, "", "alice", "k1"⟩⟩,
         ⟨"bbbbbbbbbbbb", some ⟨SignatureType.gpg, true, "", "bob", "k2"⟩⟩]⟩
      ["bob", "alice"]).satisfied
    ∧ (HasValidSignaturesBy.EvaluateWith (fun _ => Except.ok false)
      ⟨"", Except.ok
        [⟨"aaaaaaaaaaaa", some ⟨SignatureType.gpg, true, "", "alice", "k1"⟩⟩,
         ⟨"bbbbbbbbbbbb", some ⟨SignatureType.gpg, true, "", "bob", "k2"⟩⟩]⟩
      ["alice", "bob"]).err =
    (HasValidSignaturesBy.EvaluateWith (fun _ => Except.ok false)
      ⟨"", Except.ok
        [⟨"aaaaaaaaaaaa", some ⟨SignatureType.gpg, true, "", "alice", "k1"⟩⟩,
         ⟨"bbbbbbbbbbbb", some ⟨SignatureType.gpg, true, "", "bob", "k2"⟩⟩]⟩
      ["bob", "alice"]).err :=
  (C8_purity_amended
    ⟨"", Except.ok
      [⟨"aaaaaaaaaaaa", some ⟨SignatureType.gpg, true, "", "alice", "k1"⟩⟩,
       ⟨"bbbbbbbbbbbb", some ⟨SignatureType.gpg, true, "", "bob", "k2"⟩⟩]⟩
    ["alice", "bob"] ["bob", "alice"] (by decide)).1
    (fun _ => Except.ok false) (fun s => ⟨false, rfl⟩)

end PolicyBot
